import Mathlib

/-!
# A shallow embedding of `src/AVL.hpp`

`AVL.hpp` implements a generic AVL dictionary `AVL<Key, Value>`: nodes own a
key, a (heap-allocated) value, a cached integer height, and child/parent
pointers; the tree owns the root pointer.  We embed the downward structure of
such a tree as an inductive type: a node is `node left key value height right`,
where `height` is the *cached* `int height` field of the C++ node (not a
recomputed quantity).  Parent pointers are the inverse of the
child links and are represented implicitly; the in-order iteration
`begin()`…`end()` of a tree is represented by its in-order linearization
`toList`.  The source keeps the parent pointers consistent with the child
links in every operation except one: when the discarded inner call of
`remove_r`'s two-children case performs a rotation, the surviving node's
parent pointer is left aimed at the freed pivot (see
`check_and_roll_discard`).  From the first later removal that must detach a
node through such a corrupted pointer, the heap and any downward tree
structure part ways for good — `set_child_of_parent` writes into the
orphan, the node is freed while still linked, and subsequent behavior is
undefined.  The definitions below therefore represent the downward
structure exactly up to and including the first corrupting removal, and
every theorem that executes `remove` does so only on traces that stay
within that faithful region.

Keys are any linearly ordered type (the source requires a strict total order
`<` and derives equality as `!(a<b || b<a)`); values are an arbitrary type.
C++ `int` fields (heights, sizes) are embedded as `Int`; no arithmetic in the
source comes anywhere near overflow on the inputs considered.
-/

/-- The downward structure of an `AVL<Key, Value>` tree: `nil` is the null
pointer, `node l k v h r` is a node with left child `l`, key `k`, value `v`,
cached height field `h` and right child `r`. -/
inductive AVL (K V : Type) : Type where
  | nil : AVL K V
  | node : AVL K V → K → V → Int → AVL K V → AVL K V
deriving DecidableEq, Repr

namespace AVL

set_option linter.unusedSectionVars false

variable {K V : Type} [LinearOrder K]

/-- `aux::max` from the source: `x < y ? y : x`. -/
def auxMax (x y : Int) : Int := if x < y then y else x

/-- `static bool equal(const Key&, const Key&)`: key equality derived from `<`
alone, `!(k1 < k2 || k2 < k1)`. -/
def equal (k1 k2 : K) : Bool := !(decide (k1 < k2) || decide (k2 < k1))

/-- The expression `p ? p->height : -1` of the source: the cached height field
of a possibly-null node. -/
def cached : AVL K V → Int
  | nil => -1
  | node _ _ _ h _ => h

/-- `static int height(Node* r)`: `-1` for a null node, otherwise
`aux::max(right ? right->height : -1, left ? left->height : -1) + 1` — one
level of recomputation from the children's cached heights. -/
def height : AVL K V → Int
  | nil => -1
  | node l _ _ _ r => auxMax (cached r) (cached l) + 1

/-- `static int balance(Node* r)`: `height(r->left) - height(r->right)`.
The source asserts `r` is non-null; on `nil` we return `0` (never reached
through the guarded call sites). -/
def balance : AVL K V → Int
  | nil => 0
  | node l _ _ _ r => height l - height r

/-- Left child of a node (`r->left`); `nil` for the null pointer. -/
def leftT : AVL K V → AVL K V
  | nil => nil
  | node l _ _ _ _ => l

/-- Right child of a node (`r->right`). -/
def rightT : AVL K V → AVL K V
  | nil => nil
  | node _ _ _ _ r => r

/-- `static Node* leftmost(Node* r)`: follow `left` links; returns `r` itself
if it has no left child, `nil` for `nil`. -/
def leftmost : AVL K V → AVL K V
  | nil => nil
  | node nil k v h r => node nil k v h r
  | node (node a xk xv xh b) _ _ _ _ => leftmost (node a xk xv xh b)

/-- `static Node* LL_roll(Node* r)`: single right rotation.  The new heights
are, as in the source, recomputed from the (possibly stale) cached heights of
the children after the pointers are updated. -/
def LL_roll : AVL K V → AVL K V
  | node (node a xk xv _ b) k v _ c =>
    node a xk xv (auxMax (auxMax (cached c) (cached b) + 1) (cached a) + 1)
      (node b k v (auxMax (cached c) (cached b) + 1) c)
  | t => t

/-- `static Node* RR_roll(Node* r)`: single left rotation. -/
def RR_roll : AVL K V → AVL K V
  | node a k v _ (node b yk yv _ c) =>
    node (node a k v (auxMax (cached b) (cached a) + 1) b) yk yv
      (auxMax (cached c) (auxMax (cached b) (cached a) + 1) + 1) c
  | t => t

/-- `static Node* RL_roll(Node* r)`: `r->right = LL_roll(r->right); return
RR_roll(r);`. -/
def RL_roll : AVL K V → AVL K V
  | node l k v h r => RR_roll (node l k v h (LL_roll r))
  | nil => nil

/-- `static Node* LR_roll(Node* r)`: `r->left = RR_roll(r->left); return
LL_roll(r);`. -/
def LR_roll : AVL K V → AVL K V
  | node l k v h r => LL_roll (node (RR_roll l) k v h r)
  | nil => nil

/-- `static Node* check_and_roll(Node* r)`: dispatch on the balance factor
computed from cached heights. -/
def check_and_roll (t : AVL K V) : AVL K V :=
  if balance t > 1 then
    if balance (leftT t) ≥ 0 then LL_roll t else LR_roll t
  else if balance t < -1 then
    if balance (rightT t) ≤ 0 then RR_roll t else RL_roll t
  else t

/-- The statement `r->height = height(r)`: overwrite the cached height field
of the root with one level of recomputation from the children's caches. -/
def setH : AVL K V → AVL K V
  | nil => nil
  | node l k v _ r => node l k v (auxMax (cached r) (cached l) + 1) r

/-- The ubiquitous pair of statements `r->height = height(r); return
check_and_roll(r);` closing `insert_r` and `remove_r`. -/
def fixup (t : AVL K V) : AVL K V := check_and_roll (setH t)

/-- `static Node* find_r(const Key& k, Node* r)`: recursive search, testing
`equal` first, then descending by `<`.  The returned node is represented by
its key/value pair; `none` is the null pointer (the `end()` sentinel). -/
def find_r (k : K) : AVL K V → Option (K × V)
  | nil => none
  | node l key v _ r =>
    if equal k key then some (key, v)
    else if k < key then find_r k l
    else find_r k r

/-- `static Node* insert_r(const Key&, const Value&, Node* r)`: descend by
`<` (ties to the right — the caller guarantees the key is absent), create the
node at a null position with height `0`, and on unwinding recompute the
height and call `check_and_roll`. -/
def insert_r (k : K) (v : V) : AVL K V → AVL K V
  | nil => node nil k v 0 nil
  | node l key val h r =>
    if k < key then fixup (node (insert_r k v l) key val h r)
    else fixup (node l key val h (insert_r k v r))

/-- The downward effect of `LL_roll` when the caller discards the returned
root: the parent's child slot still points at the old root, whose `left` was
redirected to the pivot's right subtree and whose height was recomputed, so
the pivot and its left subtree drop out of the downward structure. -/
def LL_discard : AVL K V → AVL K V
  | node (node _ _ _ _ b) k v _ c => node b k v (auxMax (cached c) (cached b) + 1) c
  | t => t

/-- The downward effect of `RR_roll` with a discarded return value. -/
def RR_discard : AVL K V → AVL K V
  | node a k v _ (node b _ _ _ _) => node a k v (auxMax (cached b) (cached a) + 1) b
  | t => t

/-- Replace the left child (used for the properly reattached inner rotation
of a double roll). -/
def withLeft : AVL K V → AVL K V → AVL K V
  | nil, _ => nil
  | node _ k v h r, l => node l k v h r

/-- Replace the right child. -/
def withRight : AVL K V → AVL K V → AVL K V
  | nil, _ => nil
  | node l k v h _, _r => node l k v h _r

/-- The downward effect of `check_and_roll(r)` when the caller discards the
returned pointer (as `remove_r` does in its two-children case, line
`remove_r(k, next);`).  The inner rotation of a double roll is reattached
through `r->left`/`r->right` and therefore fully applied; the outer rotation
is the discarded one.  When the discarded rotation fires, the pivot and one
of its subtrees drop out of the downward structure (their keys are silently
lost and the nodes leak) — and, beyond what a downward embedding can carry,
the surviving node's parent pointer is left pointing at the freed pivot,
which corrupts any later removal that has to detach this node through
`set_child_of_parent`. -/
def check_and_roll_discard (t : AVL K V) : AVL K V :=
  if balance t > 1 then
    if balance (leftT t) ≥ 0 then LL_discard t
    else LL_discard (withLeft t (RR_roll (leftT t)))
  else if balance t < -1 then
    if balance (rightT t) ≤ 0 then RR_discard t
    else RR_discard (withRight t (LL_roll (rightT t)))
  else t

/-- The physical removal performed by the discarded recursive call
`remove_r(k, next)` in the two-children case of `remove_r`, seen from
`r->right` downward.  `next = leftmost(r->right)` already carries key `k`
after the swap, so that call hits its `equal` branch immediately: a leaf is
detached via the parent pointer, a node with one (necessarily right) child is
spliced out, its child's height recomputed and `check_and_roll` applied with
the result discarded.  No node on the spine above `next` has its height
recomputed — the source discards the recursion that would do so.  The
detachment itself is modelled as succeeding, which matches the source
exactly as long as `next`'s parent pointer is intact, i.e. up to the first
removal whose successor's parent pointer was corrupted by a previously
discarded rotation; past that point the source fails to detach (it writes
into the orphaned pivot) while this definition still drops the node. -/
def removeLeftmostPhys : AVL K V → AVL K V
  | nil => nil
  | node nil _ _ _ c =>
    match c with
    | nil => nil
    | node cl ck cv ch cr => check_and_roll_discard (setH (node cl ck cv ch cr))
  | node (node a xk xv xh b) k v h r =>
    node (removeLeftmostPhys (node a xk xv xh b)) k v h r

/-- `static Node* remove_r(const Key& k, Node* r)`: descend by `<`; at the
node carrying `k`, detach a leaf, splice out a one-child node (then
height-fix and reroll it), or — with two children — swap key and value with
the in-order successor `next = leftmost(r->right)`, physically remove the
successor through the discarded call `remove_r(k, next)`, and height-fix and
reroll the current node only.  Faithful to the source on every state whose
parent pointers are consistent; once a discarded rotation has corrupted
one, the source's next two-children removal through it diverges (the heap
keeps the node linked), which is outside this downward embedding — the
concrete traces evaluated below stay within the faithful region. -/
def remove_r (k : K) : AVL K V → AVL K V
  | nil => nil
  | node l key v h r =>
    if k < key then fixup (node (remove_r k l) key v h r)
    else if key < k then fixup (node l key v h (remove_r k r))
    else
      match l, r with
      | nil, nil => nil
      | nil, node cl ck cv ch cr => fixup (node cl ck cv ch cr)
      | node cl ck cv ch cr, nil => fixup (node cl ck cv ch cr)
      | node al ak av ah ar, node bl bk bv bh br =>
        match leftmost (node bl bk bv bh br) with
        | nil => nil
        | node _ nk nv _ _ =>
          fixup (node (node al ak av ah ar) nk nv h
            (removeLeftmostPhys (node bl bk bv bh br)))

/-- `static int size_r(Node*)`: recursive node count. -/
def size_r : AVL K V → Int
  | nil => 0
  | node l _ _ _ r => 1 + size_r l + size_r r

/-- `bool empty() const`: `!root`. -/
def empty : AVL K V → Bool
  | nil => true
  | node _ _ _ _ _ => false

/-- `begin() == end()`: `begin()` wraps `leftmost(root)`, `end()` wraps the
null pointer, and iterators compare by node identity, so the comparison holds
exactly when `leftmost root` is the null pointer. -/
def begin_eq_end (t : AVL K V) : Bool :=
  match leftmost t with
  | nil => true
  | node _ _ _ _ _ => false

/-- `find(const Key& k)`: `find_r(k, root)` wrapped in an iterator. -/
def find (k : K) (t : AVL K V) : Option (K × V) := find_r k t

/-- `bool insert(const Key& k, const Value& v)`: reject (returning the tree
unchanged and `false`) when `find(k) != end()`, otherwise
`root = insert_r(k, v, root)` and return `true`. -/
def insert (k : K) (v : V) (t : AVL K V) : AVL K V × Bool :=
  if (find_r k t).isSome then (t, false) else (insert_r k v t, true)

/-- `void remove(const Key& k)`: no-op when `find(k) == end()`, otherwise
`root = remove_r(k, root)`. -/
def remove (k : K) (t : AVL K V) : AVL K V :=
  if (find_r k t).isSome then remove_r k t else t

/-- In-order linearization of a tree: the sequence of (key, value) pairs an
iterator walk from `begin()` to `end()` visits. -/
def toList : AVL K V → List (K × V)
  | nil => []
  | node l k v _ r => toList l ++ (k, v) :: toList r

/-- The in-order key sequence of a tree. -/
def keys (t : AVL K V) : List K := (toList t).map Prod.fst

/-- The loop of `trees_to_arrays`, with the iteration count made explicit as
fuel: each pass emits exactly one pair, taking from the right tree when
`r.key() < l.key()` and from the left tree otherwise (so on equal keys the
left pair is emitted first — and the right pair on the next pass, since
nothing advances past it).  The merge loop runs exactly
`size(this) + size(other)` times, the size of the preallocated buffers. -/
def mergeLoop : Nat → List (K × V) → List (K × V) → List (K × V)
  | 0, _, _ => []
  | _ + 1, [], [] => []
  | fuel + 1, [], q :: rs => q :: mergeLoop fuel [] rs
  | fuel + 1, p :: ls, [] => p :: mergeLoop fuel ls []
  | fuel + 1, p :: ls, q :: rs =>
    if q.1 < p.1 then q :: mergeLoop fuel (p :: ls) rs
    else p :: mergeLoop fuel ls (q :: rs)

/-- `int trees_to_arrays(const AVL&, Key*, Value**)`: co-iterate the in-order
sequences of both trees into one flat sorted buffer.  The fuel
`(toList a).length + (toList b).length` is the `size() + t.size()` buffer
bound of the source, which the loop consumes exactly. -/
def trees_to_arrays (a b : AVL K V) : List (K × V) :=
  mergeLoop ((toList a).length + (toList b).length) (toList a) (toList b)

/-- `static Node* tree_from_array(Key*, Value**, int from, int to)`: build a
tree from the segment `[lo, hi]` of the flat buffer by midpoint split,
assigning each node's height from its children's caches after they are
built.  The recursion depth is bounded by the segment size, made explicit as
fuel (the caller passes the full buffer length, which suffices since each
child segment is strictly shorter). -/
def tree_from_array (arr : List (K × V)) : Nat → Int → Int → AVL K V
  | 0, _, _ => nil
  | fuel + 1, lo, hi =>
    if lo > hi then nil
    else
      let mid := (lo + hi) / 2
      match arr[mid.toNat]? with
      | none => nil
      | some (k, v) =>
        let l := tree_from_array arr fuel lo (mid - 1)
        let r := tree_from_array arr fuel (mid + 1) hi
        node l k v (auxMax (cached r) (cached l) + 1) r

/-- `void merge(const AVL& t)`: linearize both trees into one sorted buffer
via `trees_to_arrays`, rebuild a tree from it with `tree_from_array(keys,
values, 0, merged_size - 1)`, free the old nodes and install the new root.
The right-hand tree is only read. -/
def merge (a b : AVL K V) : AVL K V :=
  let arr := trees_to_arrays a b
  tree_from_array arr arr.length 0 ((arr.length : Int) - 1)

/-- `AVL& operator=(const AVL& t)`: `if (this != &t) { clear(); merge(t); }
return *this;`.  `sameObject` is the pointer-identity test `this == &t`; in
the non-self branch, `clear()` empties the left tree and `merge(t)` then
rebuilds it from `t` alone. -/
def assign (sameObject : Bool) (lhs rhs : AVL K V) : AVL K V :=
  if sameObject then lhs else merge nil rhs

/-- Record of one execution of `merge(const AVL& t)` under an allocation
oracle: whether the call threw, both trees as left on return, and whether
either temporary buffer (`keys`, `values`) is still allocated on exit. -/
structure MergeExec (K V : Type) where
  threw : Bool
  thisAfter : AVL K V
  otherAfter : AVL K V
  keysBufLive : Bool
  valuesBufLive : Bool
deriving Repr

/-- `void merge(const AVL& t)` with the two temporary buffer allocations made
explicit.  `new Key[merged_size]` failing propagates `std::bad_alloc` before
anything was allocated or any tree touched; `new Value*[merged_size]` failing
is caught, `delete[] keys` releases the first buffer, and the exception is
rethrown, still before any mutation; on the success path both buffers are
released by the trailing `delete[]` statements and the new root is
installed.  The right-hand tree is `const` throughout. -/
def mergeAlloc (keysOk valuesOk : Bool) (a b : AVL K V) : MergeExec K V :=
  if keysOk = false then
    { threw := true, thisAfter := a, otherAfter := b,
      keysBufLive := false, valuesBufLive := false }
  else if valuesOk = false then
    { threw := true, thisAfter := a, otherAfter := b,
      keysBufLive := false, valuesBufLive := false }
  else
    { threw := false, thisAfter := merge a b, otherAfter := b,
      keysBufLive := false, valuesBufLive := false }

/-- The height of the tree actually hanging below a node, ignoring the cached
fields: `-1` for `nil`, else one more than the taller child's height. -/
def realHeight : AVL K V → Int
  | nil => -1
  | node l _ _ _ r => 1 + max (realHeight l) (realHeight r)

/-- Does every node's cached height field equal `1 + max` of the children's
true heights? -/
def heightsAccurate : AVL K V → Bool
  | nil => true
  | node l _ _ h r =>
    heightsAccurate l && heightsAccurate r &&
      decide (h = 1 + max (realHeight l) (realHeight r))

/-- Does every node satisfy the AVL balance condition on the true subtree
heights, `|height(left) - height(right)| ≤ 1`? -/
def balancedReal : AVL K V → Bool
  | nil => true
  | node l _ _ _ r =>
    balancedReal l && balancedReal r &&
      decide ((realHeight l - realHeight r).natAbs ≤ 1)

/-- Number of nodes whose key compares equal to `k`. -/
def countKey (k : K) : AVL K V → Nat
  | nil => 0
  | node l key _ _ r =>
    countKey k l + countKey k r + (if equal k key then 1 else 0)

/-- Insert a list of (key, value) pairs in order through the public
`insert`. -/
def insertList (ps : List (K × V)) (t : AVL K V) : AVL K V :=
  ps.foldl (fun s p => (insert p.1 p.2 s).1) t

/-- Remove a list of keys in order through the public `remove`. -/
def removeList (ks : List K) (t : AVL K V) : AVL K V :=
  ks.foldl (fun s k => remove k s) t

/-- The tree states reachable from the empty tree by the public `insert` and
`remove` operations. -/
inductive ReachIR : AVL K V → Prop where
  | empty : ReachIR nil
  | ins (k : K) (v : V) {t : AVL K V} : ReachIR t → ReachIR (insert k v t).1
  | rem (k : K) {t : AVL K V} : ReachIR t → ReachIR (remove k t)


/-! ## Basic lemmas about the embedding -/

@[simp] theorem toList_nil : toList (nil : AVL K V) = [] := rfl

@[simp] theorem toList_node (l : AVL K V) (k : K) (v : V) (h : Int) (r : AVL K V) :
    toList (node l k v h r) = toList l ++ (k, v) :: toList r := rfl

@[simp] theorem keys_nil : keys (nil : AVL K V) = [] := rfl

@[simp] theorem keys_node (l : AVL K V) (k : K) (v : V) (h : Int) (r : AVL K V) :
    keys (node l k v h r) = keys l ++ k :: keys r := by
  simp [keys]

theorem equal_true_iff (k1 k2 : K) : equal k1 k2 = true ↔ k1 = k2 := by
  simp only [equal, Bool.not_eq_eq_eq_not, Bool.not_true, Bool.or_eq_false_iff,
    decide_eq_false_iff_not, not_lt]
  constructor
  · rintro ⟨h1, h2⟩
    exact le_antisymm h2 h1
  · rintro rfl
    exact ⟨le_refl _, le_refl _⟩

theorem toList_setH (t : AVL K V) : toList (setH t) = toList t := by
  cases t <;> simp [setH]

theorem toList_LL_roll (t : AVL K V) : toList (LL_roll t) = toList t := by
  match t with
  | nil => rfl
  | node nil k v h c => rfl
  | node (node a xk xv xh b) k v h c => simp [LL_roll]

theorem toList_RR_roll (t : AVL K V) : toList (RR_roll t) = toList t := by
  match t with
  | nil => rfl
  | node a k v h nil => rfl
  | node a k v h (node b yk yv yh c) => simp [RR_roll]

theorem toList_RL_roll (t : AVL K V) : toList (RL_roll t) = toList t := by
  match t with
  | nil => rfl
  | node l k v h r => simp [RL_roll, toList_RR_roll, toList_LL_roll]

theorem toList_LR_roll (t : AVL K V) : toList (LR_roll t) = toList t := by
  match t with
  | nil => rfl
  | node l k v h r => simp [LR_roll, toList_RR_roll, toList_LL_roll]

theorem toList_check_and_roll (t : AVL K V) : toList (check_and_roll t) = toList t := by
  unfold check_and_roll
  split_ifs <;>
    simp [toList_LL_roll, toList_RR_roll, toList_RL_roll, toList_LR_roll]

theorem toList_fixup (t : AVL K V) : toList (fixup t) = toList t := by
  rw [fixup, toList_check_and_roll, toList_setH]

@[simp] theorem keys_fixup (t : AVL K V) : keys (fixup t) = keys t := by
  simp [keys, toList_fixup]


/-- A node returned by `find_r` belongs to the tree and its key compares
equal to the searched key. -/
theorem find_r_some_spec (k : K) (t : AVL K V) (p : K × V)
    (hf : find_r k t = some p) : p ∈ toList t ∧ p.1 = k := by
  induction t with
  | nil => simp [find_r] at hf
  | node l key v h r ihl ihr =>
    rw [find_r] at hf
    split_ifs at hf with he hlt
    · obtain rfl : (key, v) = p := by injection hf
      exact ⟨by simp, ((equal_true_iff k key).1 he).symm⟩
    · obtain ⟨hm, hk⟩ := ihl hf
      exact ⟨by simp [hm], hk⟩
    · obtain ⟨hm, hk⟩ := ihr hf
      exact ⟨by simp [hm], hk⟩

/-- On a tree whose in-order key sequence is (weakly) sorted — as every tree
the container can produce is — `find_r` succeeds on every present key. -/
theorem find_r_isSome_of_mem (k : K) (t : AVL K V)
    (hs : List.Pairwise (· ≤ ·) (keys t)) (hm : k ∈ keys t) :
    (find_r k t).isSome = true := by
  induction t with
  | nil => simp [keys] at hm
  | node l key v h r ihl ihr =>
    simp only [keys_node] at hs hm
    rw [List.pairwise_append] at hs
    obtain ⟨hsl, hsr0, hcross⟩ := hs
    rw [List.pairwise_cons] at hsr0
    obtain ⟨hkeyle, hsr⟩ := hsr0
    rw [find_r]
    by_cases he : equal k key
    · rw [if_pos he]; rfl
    · have hne : k ≠ key := fun hkk => he ((equal_true_iff k key).2 hkk)
      rw [if_neg he]
      rcases List.mem_append.1 hm with hml | hmr0
      · have hk_le : k ≤ key := hcross k hml key (List.mem_cons_self _ _)
        have hklt : k < key := lt_of_le_of_ne hk_le hne
        rw [if_pos hklt]
        exact ihl hsl hml
      · rcases List.mem_cons.1 hmr0 with rfl | hmr
        · exact absurd rfl hne
        · have hkeylt : key < k := lt_of_le_of_ne (hkeyle k hmr) (Ne.symm hne)
          rw [if_neg (not_lt.2 hkeylt.le)]
          exact ihr hsr hmr

/-- On a weakly sorted tree, `find_r` returns the null pointer exactly when
no key of the tree compares equal to the searched key. -/
theorem find_r_none_iff (k : K) (t : AVL K V)
    (hs : List.Pairwise (· ≤ ·) (keys t)) :
    find_r k t = none ↔ k ∉ keys t := by
  constructor
  · intro hn hm
    have hsome := find_r_isSome_of_mem k t hs hm
    rw [hn] at hsome
    simp at hsome
  · intro hnm
    cases hfind : find_r k t with
    | none => rfl
    | some p =>
      obtain ⟨hmem, hk⟩ := find_r_some_spec k t p hfind
      exact absurd (hk ▸ List.mem_map_of_mem Prod.fst hmem) hnm

/-- `insert_r` adds exactly one node, carrying the given key and value: its
in-order sequence is a permutation of the old one with `(k, v)` added. -/
theorem toList_insert_r_perm (k : K) (v : V) (t : AVL K V) :
    List.Perm (toList (insert_r k v t)) ((k, v) :: toList t) := by
  induction t with
  | nil => simp [insert_r]
  | node l key val h r ihl ihr =>
    rw [insert_r]
    split_ifs with hlt
    · rw [toList_fixup, toList_node, toList_node]
      exact ihl.append_right _
    · rw [toList_fixup, toList_node, toList_node]
      refine ((List.Perm.append_left (toList l)
        ((ihr.cons (key, val)).trans (List.Perm.swap (k, v) (key, val) _)))).trans ?_
      exact List.perm_middle

theorem leftmost_eq_nil_iff (t : AVL K V) : leftmost t = nil ↔ t = nil := by
  induction t with
  | nil => simp [leftmost]
  | node l k v h r ihl ihr =>
    cases l with
    | nil => rw [leftmost]
    | node a xk xv xh b => rw [leftmost]; simp [ihl]

theorem reachIR_insertList (ps : List (K × V)) {t : AVL K V} (h : ReachIR t) :
    ReachIR (insertList ps t) := by
  induction ps generalizing t with
  | nil => exact h
  | cons p ps ih => exact ih (ReachIR.ins p.1 p.2 h)

theorem reachIR_removeList (ks : List K) {t : AVL K V} (h : ReachIR t) :
    ReachIR (removeList ks t) := by
  induction ks generalizing t with
  | nil => exact h
  | cons q ks ih => exact ih (ReachIR.rem q h)

/-- The `delete_roll` test family shape: insert 10, 5, 20, 15 and remove 10.
The removed root has two children and its in-order successor 15 sits below
20, so node 20 never has its height recomputed. -/
def heightBugTree : AVL Nat Nat :=
  remove 10 (insertList [(10, 10), (5, 5), (20, 20), (15, 15)] nil)

/-- Twelve keys inserted (no rotations fire), then the root 50 is removed:
its successor 60 sits two levels down the right subtree, nodes 70 and 80
keep stale heights, and the rebalance check at the root reads the stale
cache of 70 — the needed rotation is skipped. -/
def balanceBugTree : AVL Nat Nat :=
  remove 50
    (insertList ([50, 20, 80, 10, 30, 70, 90, 5, 15, 25, 60, 3].map
      (fun k => (k, k))) nil)

/-- A single-node tree holding key 11 with value 1. -/
def dupA : AVL Nat Nat := insertList [(11, 1)] nil

/-- A single-node tree holding key 11 with value 2. -/
def dupB : AVL Nat Nat := insertList [(11, 2)] nil

/-- Two-node tree with keys 1, 2. -/
def overlapA : AVL Nat Nat := insertList [(1, 10), (2, 20)] nil

/-- Two-node tree with keys 2, 3 — key 2 collides with `overlapA`. -/
def overlapB : AVL Nat Nat := insertList [(2, 99), (3, 30)] nil

/-- Keys 1–5 inserted in ascending order. -/
def chainFive : AVL Nat Nat := insertList ([1, 2, 3, 4, 5].map (fun k => (k, k))) nil

/-- A three-node sample tree with keys 1, 3, 7. -/
def sampleTree : AVL Nat Nat := insertList [(3, 30), (1, 10), (7, 70)] nil

/-- Seventeen distinct keys inserted, then ten of them removed.  The tenth
removal, `remove 12`, hits a two-children node whose discarded inner
`check_and_roll` performs a rotation at node 15: keys 16 and 17 drop out of
the tree and, in the heap, `15->parent` is left aimed at the freed pivot.
Up to and including this state the embedding matches the source's downward
structure node for node. -/
def roundTripBugPrefix : AVL Nat Nat :=
  removeList [4, 9, 3, 13, 10, 5, 1, 11, 6, 12]
    (insertList
      ([15, 9, 17, 12, 2, 5, 6, 1, 11, 13, 4, 3, 14, 8, 7, 16, 10].map
        (fun k => (k, k))) nil)

/-! ## Claim theorems -/

/-- C1: the claim states that after `a.merge(b)` exactly one node per
distinct key survives, with `a`'s value winning on collisions — as the
source's own comment on `trees_to_arrays` promises ("output arrays ... will
only contain unique keys").  The loop has no deduplication branch: on equal
keys it emits the left pair and then, one iteration later, the right pair.
Evaluating the code on two single-node trees both keyed 11: the merged tree
holds TWO nodes keyed 11 (sizes add, both value copies present), refuting
one-node-per-distinct-key. -/
theorem C1_merge_emits_duplicate_keys :
    countKey 11 (merge dupA dupB) = 2 ∧
      size_r (merge dupA dupB) = 2 ∧
      toList (merge dupA dupB) = [(11, 1), (11, 2)] := by
  refine ⟨by decide, by decide, by decide⟩

/-- C2: the claim states every reachable tree satisfies the AVL balance
invariant and that `remove` rebalances every ancestor from the removal
point upward.  Counter-evaluation: the tree reached by inserting
50, 20, 80, 10, 30, 70, 90, 5, 15, 25, 60, 3 and removing 50 is reachable,
yet `balancedReal` is false — its root has true subtree heights 3 and 1,
because the two-children case of `remove_r` discards its recursive call and
never recomputes the heights of the nodes (70, 80) between the physically
removed successor and the removed key. -/
theorem C2_balance_invariant_fails :
    ReachIR balanceBugTree ∧ balancedReal balanceBugTree = false :=
  ⟨ReachIR.rem 50 (reachIR_insertList _ ReachIR.empty), by decide⟩

/-- C3: the claim states that every tree produced by insert, remove and
merge has a strictly increasing in-order traversal — the spec's BST-order
invariant.  The code violates it in two ways.  Evaluated here: merging the
insert-built trees `overlapA` (keys 1, 2) and `overlapB` (keys 2, 3)
produces in-order keys 1, 2, 2, 3 — not strictly increasing, two nodes
carrying keys that compare equal — because `trees_to_arrays` never
deduplicates.  Pure insert/remove sequences violate it as well: after
inserting 15, 9, 17, 12, 2, 5, 6, 1, 11, 13, 4, 3, 14, 8, 7, 16, 10 and
removing 4, 9, 3, 13, 10, 5, 1, 11, 6, 12, 8, 16, 2, 14, the heap's
in-order traversal reads 7, 15, 14 — the aftermath of the parent pointer
corrupted by the rotation discarded during remove(12); the faithful prefix
of that trace is evaluated below on `roundTripBugPrefix`. -/
theorem C3_merge_breaks_strict_order :
    keys (merge overlapA overlapB) = [1, 2, 2, 3] ∧
      ¬ List.Pairwise (· < ·) (keys (merge overlapA overlapB)) :=
  ⟨by decide, by decide⟩

/-- C4: the claim states that every reachable tree has every cached height
field equal to `1 + max` of the children's true heights.  Counter-evaluation:
after inserting 10, 5, 20, 15 and removing 10 (a reachable state), node 20
keeps its stale cached height 1 although it is now a leaf (true value 0) —
the discarded inner call of `remove_r` never recomputes it — and the root's
recomputed cache inherits the staleness. -/
theorem C4_height_invariant_fails :
    ReachIR heightBugTree ∧ heightsAccurate heightBugTree = false ∧
      cached (rightT heightBugTree) = 1 ∧
      realHeight (rightT heightBugTree) = 0 :=
  ⟨ReachIR.rem 10 (reachIR_insertList _ ReachIR.empty), by decide, by decide, by decide⟩

/-- C5: on any tree whose in-order keys are (weakly) sorted — as all
container states are — inserting a key that compares equal to a present one
returns `false` and leaves the tree object entirely unchanged (keys and
values untouched); inserting an absent key returns `true` and the new
in-order contents are exactly the old ones plus the one new `(k, v)` node. -/
theorem C5_insert_duplicate_rejected (t : AVL K V) (k : K) (v : V)
    (hs : List.Pairwise (· ≤ ·) (keys t)) :
    (k ∈ keys t → insert k v t = (t, false)) ∧
      (k ∉ keys t →
        (insert k v t).2 = true ∧
          List.Perm (toList (insert k v t).1) ((k, v) :: toList t)) := by
  constructor
  · intro hm
    unfold insert
    rw [if_pos (find_r_isSome_of_mem k t hs hm)]
  · intro hnm
    have hnone : find_r k t = none := (find_r_none_iff k t hs).2 hnm
    unfold insert
    rw [hnone]
    exact ⟨rfl, toList_insert_r_perm k v t⟩

theorem C5_insert_duplicate_rejected_witness :
    insert 3 42 sampleTree = (sampleTree, false) ∧ (insert 5 42 sampleTree).2 = true :=
  ⟨(C5_insert_duplicate_rejected sampleTree 3 42 (by decide)).1 (by decide),
    ((C5_insert_duplicate_rejected sampleTree 5 42 (by decide)).2 (by decide)).1⟩

/-- C6: on any tree whose in-order keys are (weakly) sorted, `find`
returns the end sentinel (the null pointer) exactly when no key of the tree
compares equal to the searched key; otherwise the returned node belongs to
the tree and its key compares equal to the searched one.  The descent uses
only `<` (the definition of `find_r` tests `equal` — derived from `<` — and
`<` itself), and no mutation is performed. -/
theorem C6_find_spec (t : AVL K V) (k : K)
    (hs : List.Pairwise (· ≤ ·) (keys t)) :
    (find k t = none ↔ k ∉ keys t) ∧
      ∀ p, find k t = some p → p ∈ toList t ∧ p.1 = k :=
  ⟨find_r_none_iff k t hs, fun p hp => find_r_some_spec k t p hp⟩

theorem C6_find_spec_witness :
    (find 5 sampleTree = none ↔ (5 : Nat) ∉ keys sampleTree) ∧
      ∀ p, find 5 sampleTree = some p → p ∈ toList sampleTree ∧ p.1 = 5 :=
  C6_find_spec sampleTree 5 (by decide)

/-- C7: the claim states that inserting any sequence of distinct keys into
an empty tree and then removing all of them, in any order, leaves the empty
tree (`size() == 0`, `empty() == true`).  The source fails it: inserting
15, 9, 17, 12, 2, 5, 6, 1, 11, 13, 4, 3, 14, 8, 7, 16, 10 and then removing
all seventeen keys in the order 4, 9, 3, 13, 10, 5, 1, 11, 6, 12, 8, 16, 2,
14, 15, 7, 17 ends with `size() == 2` and `empty() == false` — the rotation
discarded during `remove(12)` orphans nodes 16 and 17 and leaves
`15->parent` aimed at the freed pivot, so `remove(14)` later writes into
the orphan and never detaches its target, and keys 14 and 15 survive the
run.  Evaluated here, strictly inside the faithful region (the heap and
this embedding agree node for node through this state): already after
`remove(12)`, keys 16 and 17 have vanished from the reachable tree although
they were never removed — `find` returns the end sentinel for both — the
silent loss that leaves the final tree non-empty. -/
theorem C7_remove_silently_loses_keys :
    ReachIR roundTripBugPrefix ∧
      keys roundTripBugPrefix = [2, 7, 8, 14, 15] ∧
      find 16 roundTripBugPrefix = none ∧ find 17 roundTripBugPrefix = none :=
  ⟨reachIR_removeList _ (reachIR_insertList _ ReachIR.empty),
    by decide, by decide, by decide⟩

/-- C8: if either temporary buffer allocation of `merge` fails, the
exception propagates to the caller, both source trees are left exactly as
they were, and no temporary buffer is still allocated when the failure
leaves `merge` (the `catch` releases `keys` before rethrowing; a failing
`new Key[]` allocated nothing). -/
theorem C8_merge_alloc_failure_safe (ko vo : Bool) (a b : AVL K V)
    (hfail : ko = false ∨ vo = false) :
    (mergeAlloc ko vo a b).threw = true ∧
      (mergeAlloc ko vo a b).thisAfter = a ∧
      (mergeAlloc ko vo a b).otherAfter = b ∧
      (mergeAlloc ko vo a b).keysBufLive = false ∧
      (mergeAlloc ko vo a b).valuesBufLive = false := by
  rcases hfail with rfl | rfl
  · exact ⟨rfl, rfl, rfl, rfl, rfl⟩
  · cases ko
    · exact ⟨rfl, rfl, rfl, rfl, rfl⟩
    · exact ⟨rfl, rfl, rfl, rfl, rfl⟩

theorem C8_merge_alloc_failure_safe_witness :
    (mergeAlloc true false dupA dupB).threw = true ∧
      (mergeAlloc true false dupA dupB).thisAfter = dupA ∧
      (mergeAlloc true false dupA dupB).otherAfter = dupB ∧
      (mergeAlloc true false dupA dupB).keysBufLive = false ∧
      (mergeAlloc true false dupA dupB).valuesBufLive = false :=
  C8_merge_alloc_failure_safe true false dupA dupB (Or.inr rfl)

/-- C9: `begin()` wraps `leftmost(root)` and `end()` wraps the null
pointer, compared by node identity, so `begin() == end()` holds exactly on
the empty tree; on an empty tree `leftmost(NULL)` is `NULL`, so `begin()`
IS the end sentinel rather than undefined behavior. -/
theorem C9_begin_eq_end_iff_empty (t : AVL K V) :
    begin_eq_end t = empty t := by
  unfold begin_eq_end
  cases hlm : leftmost t with
  | nil => rw [(leftmost_eq_nil_iff t).1 hlm]; rfl
  | node l k v hh r =>
    cases t with
    | nil => simp [leftmost] at hlm
    | node a xk xv xh b => rfl

/-- C10: `operator=` first tests `this != &t`; under self-assignment the
body is skipped entirely and the tree is returned unchanged — no clear, no
rebuild, no rebalance.  By contrast the non-self path rebuilds through
`clear(); merge(t)`, which generally produces a different node structure,
as the five-node chain tree shows. -/
theorem C10_self_assignment_identity :
    (∀ (K V : Type) (_ : LinearOrder K) (t : AVL K V), assign true t t = t) ∧
      assign false chainFive chainFive ≠ chainFive :=
  ⟨fun _ _ _ _ => rfl, by decide⟩

end AVL
